import Mathlib

/-!
Verification development for the rs232-transfer scripts (listen.py,
test_cable.py, monitor.py).  The Python sources are shallowly embedded:
pure formatting helpers become Lean functions, the stateful capture loop
becomes explicit state passing over a `CapState`, side effects on the
binary sink, the log sink and the serial interface are recorded as an
event trace, and Python exceptions become explicit error values.
-/

/-! ## Hex/ASCII rendering (listen.py, `hexdump_line`) -/

/-- Uppercase hexadecimal digit character, as produced by Python's `X`
format spec. -/
def hexDigitC : Nat → Char
  | 0 => '0'
  | 1 => '1'
  | 2 => '2'
  | 3 => '3'
  | 4 => '4'
  | 5 => '5'
  | 6 => '6'
  | 7 => '7'
  | 8 => '8'
  | 9 => '9'
  | 10 => 'A'
  | 11 => 'B'
  | 12 => 'C'
  | 13 => 'D'
  | 14 => 'E'
  | 15 => 'F'
  | _ => '0'

/-- Digit-extraction loop for `hexChars`, structurally recursive on a
fuel bound so that it evaluates by kernel reduction; `n + 1` units of
fuel always suffice since the value shrinks at every division. -/
def hexCharsAux : Nat → Nat → List Char
  | 0, _ => []
  | fuel + 1, n =>
    if n < 16 then [hexDigitC n]
    else hexCharsAux fuel (n / 16) ++ [hexDigitC (n % 16)]

/-- Uppercase hex digit string of a natural number, most significant digit
first, no padding (Python `format(n, 'X')`). -/
def hexChars (n : Nat) : List Char :=
  hexCharsAux (n + 1) n

theorem hexCharsAux_fuel_irrel (f1 : Nat) :
    ∀ (f2 n : Nat), n < f1 → n < f2 → hexCharsAux f1 n = hexCharsAux f2 n := by
  induction f1 with
  | zero =>
    intro f2 n h1 _
    omega
  | succ f1 ih =>
    intro f2 n h1 h2
    cases f2 with
    | zero => omega
    | succ f2 =>
      show hexCharsAux (f1 + 1) n = hexCharsAux (f2 + 1) n
      simp only [hexCharsAux]
      split
      · rfl
      · rename_i h16
        rw [ih f2 (n / 16) (by omega) (by omega)]

/-- The recursion `hexChars` implements. -/
theorem hexChars_eq (n : Nat) :
    hexChars n = if n < 16 then [hexDigitC n]
      else hexChars (n / 16) ++ [hexDigitC (n % 16)] := by
  show hexCharsAux (n + 1) n = _
  simp only [hexCharsAux]
  split
  · rfl
  · rename_i h16
    rw [hexCharsAux_fuel_irrel n (n / 16 + 1) (n / 16) (by omega) (by omega)]
    rfl

/-- Left-pad a digit string with zeros to width `w` (Python `0w` fill). -/
def padLeft0 (w : Nat) (s : List Char) : List Char :=
  List.replicate (w - s.length) '0' ++ s

/-- Right-pad a string with spaces to width `w` (Python `<w` fill). -/
def padRightSpace (w : Nat) (s : String) : String :=
  s ++ String.mk (List.replicate (w - s.length) ' ')

/-- One byte of the ASCII pane: the character itself when printable,
`.` otherwise (listen.py line 64: `chr(b) if 32 <= b < 127 else '.'`). -/
def asciiChar (b : Nat) : Char :=
  if 32 ≤ b ∧ b < 127 then Char.ofNat b else '.'

/-- Value of one uppercase hex digit character (specification-side decoder,
used to state that the printed offsets and bytes denote their values). -/
def hexCharVal (c : Char) : Nat :=
  if c.toNat < 58 then c.toNat - 48 else c.toNat - 55

/-- Value denoted by a big-endian hex digit string. -/
def hexStrVal (s : List Char) : Nat :=
  s.foldl (fun a c => 16 * a + hexCharVal c) 0

/-- Recognizer for the characters Python's uppercase hex format can emit. -/
def isUpperHexDigit (c : Char) : Bool :=
  (48 ≤ c.toNat && c.toNat ≤ 57) || (65 ≤ c.toNat && c.toNat ≤ 70)

/-- listen.py `hexdump_line(data, base_offset)`: 8-hex-digit offset, a
colon, the two-digit uppercase hex bytes space-separated and left-justified
in 48 columns, two spaces, and the ASCII pane between pipes. -/
def hexdump_line (data : List Nat) (base_offset : Nat) : String :=
  let hexpart := String.intercalate (String.mk [' ']) (data.map (fun b => String.mk (padLeft0 2 (hexChars b))))
  let asciipart := String.mk (data.map asciiChar)
  String.mk (padLeft0 8 (hexChars base_offset)) ++ String.mk [':', ' '] ++
    padRightSpace 48 hexpart ++ String.mk [' ', ' ', '|'] ++ asciipart ++ String.mk ['|']

/-- listen.py lines 208-210: `for i in range(0, len(data), 16)` renders
the 16-byte slice `data[i:i+16]` at offset `offset + i`.  The loop
indices `0, 16, 32, ...` are written `16 * i` for `i < ⌈len/16⌉`. -/
def capture_log_lines (data : List Nat) (offset : Nat) : List String :=
  (List.range ((data.length + 15) / 16)).map
    (fun i => hexdump_line ((data.drop (16 * i)).take 16) (offset + 16 * i))

/-! ### Basic facts about the hex rendering -/

theorem hexCharVal_hexDigitC {d : Nat} (h : d < 16) : hexCharVal (hexDigitC d) = d := by
  interval_cases d <;> rfl

theorem isUpperHexDigit_hexDigitC {d : Nat} (h : d < 16) : isUpperHexDigit (hexDigitC d) = true := by
  interval_cases d <;> rfl

theorem hexChars_digits (n : Nat) : ∀ c ∈ hexChars n, ∃ d, d < 16 ∧ c = hexDigitC d := by
  induction n using Nat.strong_induction_on with
  | _ n ih =>
    rw [hexChars_eq]
    split
    · intro c hc
      simp only [List.mem_singleton] at hc
      exact ⟨n, by omega, hc⟩
    · intro c hc
      rw [List.mem_append] at hc
      rcases hc with hc | hc
      · exact ih (n / 16) (Nat.div_lt_self (by omega) (by omega)) c hc
      · simp only [List.mem_singleton] at hc
        exact ⟨n % 16, Nat.mod_lt _ (by omega), hc⟩

theorem hexStrVal_append_digit (s : List Char) (c : Char) :
    hexStrVal (s ++ [c]) = 16 * hexStrVal s + hexCharVal c := by
  simp [hexStrVal, List.foldl_append]

theorem hexStrVal_hexChars (n : Nat) : hexStrVal (hexChars n) = n := by
  induction n using Nat.strong_induction_on with
  | _ n ih =>
    rw [hexChars_eq]
    split
    · rename_i h16
      simp only [hexStrVal, List.foldl_cons, List.foldl_nil, Nat.mul_zero, Nat.zero_add]
      exact hexCharVal_hexDigitC h16
    · rw [hexStrVal_append_digit, ih (n / 16) (Nat.div_lt_self (by omega) (by omega)),
        hexCharVal_hexDigitC (Nat.mod_lt _ (by omega))]
      omega

theorem hexStrVal_padLeft0 (w : Nat) (s : List Char) :
    hexStrVal (padLeft0 w s) = hexStrVal s := by
  unfold padLeft0 hexStrVal
  rw [List.foldl_append]
  congr 1
  induction (w - s.length) with
  | zero => rfl
  | succ k ihk => simpa [List.replicate_succ, hexCharVal] using ihk

theorem hexChars_ne_nil (n : Nat) : hexChars n ≠ [] := by
  rw [hexChars_eq]
  split <;> simp

theorem hexChars_length_le {n k : Nat} (hk : 1 ≤ k) (h : n < 16 ^ k) :
    (hexChars n).length ≤ k := by
  induction k generalizing n with
  | zero => omega
  | succ k ihk =>
    rw [hexChars_eq]
    split
    · simp only [List.length_singleton]
      omega
    · have h16 : ¬ n < 16 := by assumption
      have hk1 : 1 ≤ k := by
        by_contra hcon
        have : k = 0 := by omega
        subst this
        simp [pow_succ, pow_zero] at h
        omega
      have hdiv : n / 16 < 16 ^ k := by
        rw [Nat.div_lt_iff_lt_mul (by omega)]
        calc n < 16 ^ (k + 1) := h
        _ = 16 ^ k * 16 := by ring
      have := ihk hk1 hdiv
      simp only [List.length_append, List.length_singleton]
      omega

theorem padLeft0_length {w : Nat} {s : List Char} (h : s.length ≤ w) :
    (padLeft0 w s).length = w := by
  simp [padLeft0]
  omega

/-- The zero-padded 8-digit offset field: 8 characters, all uppercase hex
digits, denoting exactly the offset value, for any offset below `16 ^ 8`. -/
theorem offsetField_spec {o : Nat} (h : o < 16 ^ 8) :
    (padLeft0 8 (hexChars o)).length = 8 ∧
    (∀ c ∈ padLeft0 8 (hexChars o), isUpperHexDigit c = true) ∧
    hexStrVal (padLeft0 8 (hexChars o)) = o := by
  refine ⟨padLeft0_length (hexChars_length_le (by omega) h), ?_, ?_⟩
  · intro c hc
    rw [padLeft0, List.mem_append] at hc
    rcases hc with hc | hc
    · rw [List.eq_of_mem_replicate hc]
      rfl
    · obtain ⟨d, hd, rfl⟩ := hexChars_digits o c hc
      exact isUpperHexDigit_hexDigitC hd
  · rw [hexStrVal_padLeft0, hexStrVal_hexChars]

/-- The two-digit byte field: 2 characters, uppercase hex digits,
denoting exactly the byte value, for bytes below 256. -/
theorem byteField_spec {b : Nat} (h : b < 256) :
    (padLeft0 2 (hexChars b)).length = 2 ∧
    (∀ c ∈ padLeft0 2 (hexChars b), isUpperHexDigit c = true) ∧
    hexStrVal (padLeft0 2 (hexChars b)) = b := by
  refine ⟨padLeft0_length (hexChars_length_le (by omega) (by omega)), ?_, ?_⟩
  · intro c hc
    rw [padLeft0, List.mem_append] at hc
    rcases hc with hc | hc
    · rw [List.eq_of_mem_replicate hc]
      rfl
    · obtain ⟨d, hd, rfl⟩ := hexChars_digits b c hc
      exact isUpperHexDigit_hexDigitC hd
  · rw [hexStrVal_padLeft0, hexStrVal_hexChars]

/-! ### Shape of the per-chunk log lines -/

theorem capture_log_lines_nil (offset : Nat) : capture_log_lines [] offset = [] := by
  simp [capture_log_lines]

/-- One line per 16 bytes, the last line possibly shorter. -/
theorem capture_log_lines_length (data : List Nat) (offset : Nat) :
    (capture_log_lines data offset).length = (data.length + 15) / 16 := by
  simp [capture_log_lines]

/-- Line `i` renders exactly bytes `16*i .. 16*i+15` of the chunk at
session-stream offset `offset + 16*i`. -/
theorem capture_log_lines_get (i : Nat) :
    ∀ (data : List Nat) (offset : Nat) (h : i < (capture_log_lines data offset).length),
      (capture_log_lines data offset)[i] =
        hexdump_line ((data.drop (16 * i)).take 16) (offset + 16 * i) := by
  intro data offset h
  simp [capture_log_lines]

/-! ## The capture engine (listen.py, `main`, lines 142-224)

The loop body is embedded as a pure step function over an explicit
session state.  Side effects on the binary sink, the log sink and the
serial interface are additionally recorded as an event trace; the Python
`NameError` raised by the stray `last_cts = cts` statement on line 193
becomes an explicit error value. -/

/-- Incoming control line selected by `--monitor-line` (the `'none'`
choice and an absent option are both modelled as `Option.none`). -/
inductive MonLine
  | cts
  | dsr
deriving DecidableEq, Repr

/-- Outcome of one Python attribute access or method call used to sample
a control line: a boolean, an `AttributeError`, or some other exception. -/
inductive PyAccess
  | ok (b : Bool)
  | attrError
  | raiseOther
deriving DecidableEq, Repr

/-- The uncaught Python exceptions the embedded code can raise. -/
inductive PyErr
  | nameErrorCts
deriving DecidableEq, Repr

/-- Observable side effects of the scripts, in program order. -/
inductive Ev
  | serRead (maxBytes : Nat)
  | binWrite (data : List Nat)
  | binFlush
  | binSeekBack (n : Nat)
  | logWrite (s : String)
  | logFlush
  | sleepMs (ms : Nat)
  | resetInputBuf
  | resetOutputBuf
  | serWrite (data : List Nat)
  | serFlush
  | setRTSLine (v : Bool)
  | sampleCTSLine
deriving DecidableEq, Repr

/-- The binary sink: an open `wb` file with its contents and the current
file position (`f.write` overwrites at the position, `f.seek` with
`os.SEEK_CUR` moves it back). -/
structure BinFile where
  content : List Nat
  pos : Nat
deriving DecidableEq, Repr

/-- `f.write(data)` at the current position. -/
def fwrite (f : BinFile) (data : List Nat) : BinFile :=
  { content := f.content.take f.pos ++ data ++ f.content.drop (f.pos + data.length),
    pos := f.pos + data.length }

/-- `f.seek(-n, os.SEEK_CUR)`. -/
def seekBackCur (f : BinFile) (n : Nat) : BinFile :=
  { f with pos := f.pos - n }

/-- Per-session configuration distilled from the argparse options that
reach the capture loop. -/
structure Config where
  monitorLine : Option MonLine
  doLog : Bool
  sevenbit : Bool
  initMonitor : Bool
deriving DecidableEq, Repr

/-- Environment of one loop iteration: what the serial interface would
answer this time around. `monitorSample` is the result of
`read_monitor` (`Except.error` models a raise, caught on lines 185-188);
`readData` is the chunk `ser.read(1024)` returns; `timeMs` is
`time.time()` at the change-detection point, in milliseconds. -/
structure IterEnv where
  monitorSample : Except Unit Bool
  readData : List Nat
  timeMs : Nat
deriving Repr

/-- Mutable state of a capture session (listen.py lines 158-164). -/
structure CapState where
  bin : BinFile
  log : List String
  offset : Nat
  lastMonitor : Option Bool
deriving DecidableEq, Repr

def monName : MonLine → String
  | .cts => "CTS"
  | .dsr => "DSR"

/-- Python `str` of a boolean. -/
def pyBool (b : Bool) : String :=
  if b then "True" else "False"

/-- Render a millisecond count the way `f'{time.time():.3f}'` renders
seconds: integral part, a dot, three zero-padded fractional digits. -/
def fmtMs (t : Nat) : String :=
  let frac := toString (t % 1000)
  toString (t / 1000) ++ String.mk ['.'] ++
    String.mk (List.replicate (3 - frac.length) '0') ++ frac

/-- The change annotation of listen.py line 190:
`# {LINE} changed: {cur} at {t}`. -/
def annotChange (l : MonLine) (cur : Bool) (t : Nat) : String :=
  String.mk ['#', ' '] ++ monName l ++ " changed: " ++ pyBool cur ++ " at " ++ fmtMs t

/-- `cur` as computed on lines 185-188: the sampled value, degraded to
`False` when `read_monitor` raised. -/
def degradeSample (s : Except Unit Bool) : Bool :=
  match s with
  | .ok b => b
  | .error _ => false

/-- One iteration of the `while True` capture loop (listen.py lines
182-215).  Returns the state reached, the event trace of the iteration,
and the exception the iteration raised, if any.  With a configured
monitor line the iteration performs the change-detection block and then
raises `NameError` at the stray `last_cts = cts` statement (line 193,
`cts` is never defined); without one it performs the read/write block. -/
def capture_iter (cfg : Config) (env : IterEnv) (st : CapState) :
    CapState × List Ev × Option PyErr :=
  match cfg.monitorLine with
  | some l =>
    let cur := degradeSample env.monitorSample
    if (st.lastMonitor != some cur) && cfg.doLog then
      ({ st with
          log := st.log ++ [annotChange l cur env.timeMs],
          lastMonitor := some cur },
        [Ev.logWrite (annotChange l cur env.timeMs), Ev.logFlush], some PyErr.nameErrorCts)
    else
      (st, [], some PyErr.nameErrorCts)
  | none =>
    let data := env.readData
    if data = [] then
      (st, [Ev.serRead 1024, Ev.sleepMs 50], none)
    else
      let bin1 := fwrite st.bin data
      let data2 := if cfg.sevenbit then data.map (fun b => b &&& 0x7F) else data
      let bin2 := if cfg.sevenbit then fwrite (seekBackCur bin1 data2.length) data2 else bin1
      let maskEvs := if cfg.sevenbit then
          [Ev.binSeekBack data2.length, Ev.binWrite data2, Ev.binFlush] else []
      let logLines := if cfg.doLog then capture_log_lines data2 st.offset else []
      let logEvs := if cfg.doLog then logLines.map Ev.logWrite ++ [Ev.logFlush] else []
      ({ st with
          bin := bin2,
          log := st.log ++ logLines,
          offset := st.offset + data2.length },
        [Ev.serRead 1024, Ev.binWrite data, Ev.binFlush] ++ maskEvs ++ logEvs, none)

/-- The header block written at session start when logging is enabled
(listen.py lines 161-164). -/
def headerLines (cfg : Config) (startTs : String) : List String :=
  [ "# start " ++ startTs,
    "# monitor_line: " ++ (match cfg.monitorLine with
      | none => "None"
      | some .cts => "cts"
      | some .dsr => "dsr"),
    "# monitor initial: " ++ (match cfg.monitorLine with
      | none => "None"
      | some _ => pyBool cfg.initMonitor) ]

/-- Session state after opening the sinks (listen.py lines 158-164):
empty binary file, header block when logging, offset `0`, and the
initial monitor sample as last observed state. -/
def initState (cfg : Config) (startTs : String) : CapState :=
  { bin := { content := [], pos := 0 },
    log := if cfg.doLog then headerLines cfg startTs else [],
    offset := 0,
    lastMonitor := cfg.monitorLine.map (fun _ => cfg.initMonitor) }

/-- Run the capture loop over a list of per-iteration environments,
stopping early if an iteration raises. -/
def runIters (cfg : Config) : List IterEnv → CapState → CapState × List Ev × Option PyErr
  | [], st => (st, [], none)
  | e :: rest, st =>
    match capture_iter cfg e st with
    | (st1, evs, none) =>
      let r := runIters cfg rest st1
      (r.1, evs ++ r.2.1, r.2.2)
    | (st1, evs, some er) => (st1, evs, some er)

/-- Final outcome of a session. -/
inductive Outcome
  | interrupted
  | crashed (e : PyErr)
deriving DecidableEq, Repr

/-- Everything observable when `main` returns or dies. -/
structure SessionOut where
  final : CapState
  trace : List Ev
  outcome : Outcome
  binClosed : Bool
  logClosed : Bool
  stdout : List String
deriving DecidableEq, Repr

def msgInterrupted : String := "Interrupted — closing"

def msgWrote (outname elapsed : String) : String :=
  "Wrote file: " ++ outname ++ ", elapsed " ++ elapsed ++ "s"

/-- listen.py lines 156-224: run the loop over `envs`; a
`KeyboardInterrupt` arrives at the next iteration boundary.  The
`try/except KeyboardInterrupt` prints the interrupt report; an
uncaught exception propagates with no report.  The `with` statement
closes both sinks on every exit path. -/
def run_capture (cfg : Config) (envs : List IterEnv) (startTs outname elapsed : String) :
    SessionOut :=
  match runIters cfg envs (initState cfg startTs) with
  | (st, evs, none) =>
    { final := st, trace := evs, outcome := Outcome.interrupted,
      binClosed := true, logClosed := true,
      stdout := [ msgInterrupted, msgWrote outname elapsed ] }
  | (st, evs, some er) =>
    { final := st, trace := evs, outcome := Outcome.crashed er,
      binClosed := true, logClosed := true, stdout := [] }

/-- listen.py lines 142-154: poll the monitor line until it samples
`True` or the 30 s timeout elapses; the list holds the samples observed
before the timeout cuts the loop off.  Returns whether the line was seen
asserted; either way the caller falls through to the capture loop. -/
def wait_for_assertion : List Bool → Bool
  | [] => false
  | s :: rest => if s then true else wait_for_assertion rest

/-- Total number of bytes ever written to the binary sink along a trace. -/
def writtenBytes : List Ev → Nat
  | [] => 0
  | Ev.binWrite d :: r => d.length + writtenBytes r
  | _ :: r => writtenBytes r

/-- The chunk as it ends up in the binary sink: masked iff `--sevenbit`. -/
def procChunk (cfg : Config) (d : List Nat) : List Nat :=
  if cfg.sevenbit then d.map (fun b => b &&& 0x7F) else d

/-! ### Session-level facts -/

theorem fwrite_at_end {f : BinFile} (hpos : f.pos = f.content.length) (d : List Nat) :
    fwrite f d = { content := f.content ++ d, pos := f.content.length + d.length } := by
  unfold fwrite
  simp [hpos, List.take_length, List.drop_eq_nil_of_le]


theorem fwrite_mask_overwrite (C d m : List Nat) (hlen : m.length = d.length) :
    fwrite (seekBackCur { content := C ++ d, pos := C.length + d.length } m.length) m
      = { content := C ++ m, pos := C.length + m.length } := by
  unfold fwrite seekBackCur
  simp only [hlen]
  have h1 : C.length + d.length - d.length = C.length := by omega
  rw [h1]
  have h2 : (C ++ d).take C.length = C := by
    simp [List.take_append]
  have h3 : (C ++ d).drop (C.length + d.length) = [] := by
    apply List.drop_eq_nil_of_le
    simp
  rw [h2, h3]
  simp

theorem writtenBytes_append (a b : List Ev) :
    writtenBytes (a ++ b) = writtenBytes a + writtenBytes b := by
  induction a with
  | nil => simp [writtenBytes]
  | cons e r ih => cases e <;> simp [writtenBytes, ih, Nat.add_assoc]

theorem length_procChunk (cfg : Config) (d : List Nat) :
    (procChunk cfg d).length = d.length := by
  unfold procChunk
  split <;> simp

/-- Equation: an iteration with no monitor line and an empty read only
sleeps (listen.py lines 213-215). -/
theorem capture_iter_empty (cfg : Config) (env : IterEnv) (st : CapState)
    (hm : cfg.monitorLine = none) (hdat : env.readData = []) :
    capture_iter cfg env st = (st, [Ev.serRead 1024, Ev.sleepMs 50], none) := by
  unfold capture_iter
  rw [hm]
  simp [hdat]

/-- Equation: an iteration with no monitor line, a non-empty read and
`--sevenbit` writes the raw chunk, flushes, seeks back, overwrites with
the masked chunk, flushes, then logs the masked chunk (listen.py lines
195-212). -/
theorem capture_iter_masked (cfg : Config) (env : IterEnv) (st : CapState)
    (hm : cfg.monitorLine = none) (hdat : env.readData ≠ []) (hseven : cfg.sevenbit = true) :
    capture_iter cfg env st =
      ({ bin := fwrite (seekBackCur (fwrite st.bin env.readData) env.readData.length)
                  (env.readData.map (fun b => b &&& 0x7F)),
         log := st.log ++ (if cfg.doLog then
             capture_log_lines (env.readData.map (fun b => b &&& 0x7F)) st.offset else []),
         offset := st.offset + env.readData.length,
         lastMonitor := st.lastMonitor },
       [Ev.serRead 1024, Ev.binWrite env.readData, Ev.binFlush,
          Ev.binSeekBack env.readData.length,
          Ev.binWrite (env.readData.map (fun b => b &&& 0x7F)), Ev.binFlush] ++
         (if cfg.doLog then
           (capture_log_lines (env.readData.map (fun b => b &&& 0x7F)) st.offset).map Ev.logWrite
             ++ [Ev.logFlush] else []),
       none) := by
  unfold capture_iter
  rw [hm]
  simp only [if_neg hdat, hseven, if_true, List.length_map]
  cases hlog : cfg.doLog <;> simp [hlog]

/-- Equation: an iteration with no monitor line, a non-empty read and no
masking writes the chunk, flushes, then logs it (listen.py lines
195-212). -/
theorem capture_iter_plain (cfg : Config) (env : IterEnv) (st : CapState)
    (hm : cfg.monitorLine = none) (hdat : env.readData ≠ []) (hseven : cfg.sevenbit = false) :
    capture_iter cfg env st =
      ({ bin := fwrite st.bin env.readData,
         log := st.log ++ (if cfg.doLog then capture_log_lines env.readData st.offset else []),
         offset := st.offset + env.readData.length,
         lastMonitor := st.lastMonitor },
       [Ev.serRead 1024, Ev.binWrite env.readData, Ev.binFlush] ++
         (if cfg.doLog then
           (capture_log_lines env.readData st.offset).map Ev.logWrite ++ [Ev.logFlush] else []),
       none) := by
  unfold capture_iter
  rw [hm]
  simp only [if_neg hdat, hseven]
  cases hlog : cfg.doLog <;> simp [hlog]

/-- What one iteration does when no monitor line is configured: no raise,
the processed chunk appended to the sink, the offset advanced by the
bytes read, and at least the chunk length newly written to the sink. -/
theorem capture_iter_mon_none (cfg : Config) (env : IterEnv) (st : CapState)
    (hm : cfg.monitorLine = none) (hpos : st.bin.pos = st.bin.content.length) :
    (capture_iter cfg env st).2.2 = none ∧
    (capture_iter cfg env st).1.bin.content = st.bin.content ++ procChunk cfg env.readData ∧
    (capture_iter cfg env st).1.bin.pos = (capture_iter cfg env st).1.bin.content.length ∧
    (capture_iter cfg env st).1.offset = st.offset + env.readData.length ∧
    (capture_iter cfg env st).1.lastMonitor = st.lastMonitor ∧
    env.readData.length ≤ writtenBytes (capture_iter cfg env st).2.1 := by
  by_cases hdat : env.readData = []
  · rw [capture_iter_empty cfg env st hm hdat]
    simp [procChunk, writtenBytes, hpos, hdat]
  · cases hseven : cfg.sevenbit with
    | true =>
      rw [capture_iter_masked cfg env st hm hdat hseven]
      have hmask : (env.readData.map (fun b => b &&& 0x7F)).length = env.readData.length := by
        simp
      rw [fwrite_at_end hpos]
      have hrw := fwrite_mask_overwrite st.bin.content env.readData
        (env.readData.map (fun b => b &&& 0x7F)) hmask
      rw [hmask] at hrw
      rw [hrw]
      refine ⟨rfl, by simp [procChunk, hseven], by simp [hmask], rfl, rfl, ?_⟩
      rw [show [Ev.serRead 1024, Ev.binWrite env.readData, Ev.binFlush,
          Ev.binSeekBack env.readData.length,
          Ev.binWrite (env.readData.map (fun b => b &&& 0x7F)), Ev.binFlush] =
        [Ev.serRead 1024, Ev.binWrite env.readData, Ev.binFlush,
          Ev.binSeekBack env.readData.length] ++
        [Ev.binWrite (env.readData.map (fun b => b &&& 0x7F)), Ev.binFlush] from rfl]
      simp [writtenBytes_append, writtenBytes]
    | false =>
      rw [capture_iter_plain cfg env st hm hdat hseven]
      rw [fwrite_at_end hpos]
      refine ⟨rfl, by simp [procChunk, hseven], by simp, rfl, rfl, ?_⟩
      simp [writtenBytes_append, writtenBytes]

/-- Running the loop with no monitor line never raises; the binary sink
accumulates the processed chunks in order, its position stays at the end
of the file, the offset advances by exactly the bytes read, and the
total bytes read bound the bytes ever written from below. -/
theorem runIters_mon_none (cfg : Config) (hm : cfg.monitorLine = none) :
    ∀ (envs : List IterEnv) (st : CapState), st.bin.pos = st.bin.content.length →
      (runIters cfg envs st).2.2 = none ∧
      (runIters cfg envs st).1.bin.content =
        st.bin.content ++ (envs.map (fun e => procChunk cfg e.readData)).flatten ∧
      (runIters cfg envs st).1.bin.pos = (runIters cfg envs st).1.bin.content.length ∧
      (runIters cfg envs st).1.offset =
        st.offset + (envs.map (fun e => e.readData.length)).sum ∧
      (runIters cfg envs st).1.lastMonitor = st.lastMonitor ∧
      (envs.map (fun e => e.readData.length)).sum ≤ writtenBytes (runIters cfg envs st).2.1 := by
  intro envs
  induction envs with
  | nil =>
    intro st hpos
    simp [runIters, writtenBytes, hpos]
  | cons e rest ih =>
    intro st hpos
    obtain ⟨hne, hcont, hpos1, hoff, hlast, hwb⟩ := capture_iter_mon_none cfg e st hm hpos
    unfold runIters
    rcases hstep : capture_iter cfg e st with ⟨st1, evs, err⟩
    rw [hstep] at hne hcont hpos1 hoff hlast hwb
    simp only at hne hcont hpos1 hoff hlast hwb
    subst hne
    simp only
    obtain ⟨ihne, ihcont, ihpos, ihoff, ihlast, ihwb⟩ := ih st1 hpos1
    refine ⟨ihne, ?_, ihpos, ?_, by rw [ihlast, hlast], ?_⟩
    · rw [ihcont, hcont]
      simp
    · rw [ihoff, hoff]
      simp [Nat.add_assoc]
    · rw [writtenBytes_append]
      simp only [List.map_cons, List.sum_cons]
      omega

/-! ## Loopback / continuity tester (test_cable.py) -/

/-- The hard-coded pattern of `loopback_test`:
`b'TEST-LOOPBACK-123\r\n'`. -/
def loopback_msg : List Nat :=
  [84, 69, 83, 84, 45, 76, 79, 79, 80, 66, 65, 67, 75, 45, 49, 50, 51, 13, 10]

/-- What `loopback_test` observes and returns: `n = s.write(msg)` (all
bytes accepted), the bytes read back, and the `ok` comparison it
returns.  The printed values are kept as fields. -/
structure LoopbackResult where
  written : Nat
  received : List Nat
  ok : Bool
deriving DecidableEq, Repr

/-- test_cable.py `loopback_test(s)` generalized over the pattern the
body operates on (the script instantiates `msg = loopback_msg`).  The
wire is abstracted as `echo`: after the settle sleep the input buffer
holds `echo msg`; `s.read(n)` then yields at most `n` of those bytes
(a short read is returned as-is, there is no retry loop in the body). -/
def loopback_test (echo : List Nat → List Nat) (msg : List Nat) :
    LoopbackResult × List Ev :=
  let n := msg.length
  let received := (echo msg).take n
  ({ written := n, received := received, ok := received == msg },
   [Ev.resetInputBuf, Ev.resetOutputBuf, Ev.serWrite msg, Ev.serFlush,
     Ev.sleepMs 150, Ev.serRead n])

/-- test_cable.py `rts_cts_test(s)` generalized over the toggle sequence
the body iterates over (the script instantiates `(True, False, True)`).
The serial world is abstract: `setR` drives RTS, `tick` lets the settle
sleep pass, `readC` samples CTS.  For each value the body sets RTS,
sleeps 100 ms, samples CTS and appends the pair; it computes no verdict. -/
def rts_cts_test {W : Type} (setR : Bool → W → W) (tick : W → W) (readC : W → Bool) :
    List Bool → W → List (Bool × Bool) × W × List Ev
  | [], w => ([], w, [])
  | v :: rest, w =>
    let w1 := tick (setR v w)
    let r := rts_cts_test setR tick readC rest w1
    ((v, readC w1) :: r.1, r.2.1, Ev.setRTSLine v :: Ev.sleepMs 100 :: Ev.sampleCTSLine :: r.2.2)

/-! ## Control line sampling (monitor.py `read_lines`, listen.py `get_cts`) -/

/-- Python `getattr(obj, name, False)`: an `AttributeError` inside the
lookup yields the default, any other exception propagates. -/
def pyGetattrD (a : PyAccess) (dflt : Bool) : Except Unit Bool :=
  match a with
  | .ok b => .ok b
  | .attrError => .ok dflt
  | .raiseOther => .error ()

/-- listen.py `get_cts(ser)`.  `hasGet` is `hasattr(ser, 'getCTS')`,
`callRes` the outcome of `ser.getCTS()`, `attrRes` the outcome of
reading the `ser.cts` property.  The `try` covers only the method path;
the `getattr` fallback on line 49 runs outside it. -/
def get_cts (hasGet : Bool) (callRes attrRes : PyAccess) : Except Unit Bool :=
  let tryBlock : Option Bool :=
    if hasGet then
      match callRes with
      | .ok b => some b
      | _ => none
    else none
  match tryBlock with
  | some b => .ok b
  | none => pyGetattrD attrRes false

/-- listen.py `get_dsr(ser)`, same shape as `get_cts`. -/
def get_dsr (hasGet : Bool) (callRes attrRes : PyAccess) : Except Unit Bool :=
  let tryBlock : Option Bool :=
    if hasGet then
      match callRes with
      | .ok b => some b
      | _ => none
    else none
  match tryBlock with
  | some b => .ok b
  | none => pyGetattrD attrRes false

/-- One line of monitor.py `read_lines(ser)`: the whole body, method
branch or `getattr` branch, sits inside `try: ... except Exception:
status[x] = False`, so every raise degrades to `False`. -/
def read_line_status (hasGet : Bool) (callRes attrRes : PyAccess) : Bool :=
  let body : Except Unit Bool :=
    if hasGet then
      match callRes with
      | .ok b => .ok b
      | _ => .error ()
    else pyGetattrD attrRes false
  match body with
  | .ok b => b
  | .error _ => false

/-- The `status` dict of monitor.py `read_lines`. -/
structure LineStatus where
  cts : Bool
  dsr : Bool
  ri : Bool
  cd : Bool
deriving DecidableEq, Repr

/-- monitor.py `read_lines(ser)` over the four modem-status lines; each
argument triple is (`hasattr`, method-call outcome, property outcome). -/
def read_lines (ctsA dsrA riA cdA : Bool × PyAccess × PyAccess) : LineStatus :=
  { cts := read_line_status ctsA.1 ctsA.2.1 ctsA.2.2,
    dsr := read_line_status dsrA.1 dsrA.2.1 dsrA.2.2,
    ri := read_line_status riA.1 riA.2.1 riA.2.2,
    cd := read_line_status cdA.1 cdA.2.1 cdA.2.2 }

/-! ## Claim theorems -/

def tsExample : String := "2026-10-12T00:00:00"

def outExample : String := "llist-20261012-000000.bin"

def elExample : String := "30.1"

/-- Session with `--monitor-line cts`, no logging, no masking; the remote
never asserts CTS. -/
def cfgMonC1 : Config :=
  { monitorLine := some MonLine.cts, doLog := false, sevenbit := false, initMonitor := false }

/-- First loop iteration: CTS still samples false and one byte `0x41`
is pending on the wire. -/
def envPendingByte : IterEnv :=
  { monitorSample := Except.ok false, readData := [65], timeMs := 30250 }

/-- Polling an all-false sample train times out with `asserted = false`. -/
theorem wait_all_false (n : Nat) : wait_for_assertion (List.replicate n false) = false := by
  induction n with
  | zero => rfl
  | succ n ih => simpa [List.replicate_succ, wait_for_assertion] using ih

/-- Equation: with a monitor line configured, logging on and a changed
sample, the iteration writes the annotation, updates the last-observed
state, and then raises `NameError` (listen.py lines 184-193). -/
theorem capture_iter_monitor_hit (cfg : Config) (env : IterEnv) (st : CapState) (l : MonLine)
    (hm : cfg.monitorLine = some l) (hl : cfg.doLog = true)
    (hne : st.lastMonitor ≠ some (degradeSample env.monitorSample)) :
    capture_iter cfg env st =
      ({ st with
          log := st.log ++ [annotChange l (degradeSample env.monitorSample) env.timeMs],
          lastMonitor := some (degradeSample env.monitorSample) },
       [Ev.logWrite (annotChange l (degradeSample env.monitorSample) env.timeMs), Ev.logFlush],
       some PyErr.nameErrorCts) := by
  unfold capture_iter
  rw [hm]
  simp [hl, bne_iff_ne, hne]

/-- Equation: with a monitor line configured and an unchanged sample (or
logging off), the iteration changes nothing before raising `NameError`. -/
theorem capture_iter_monitor_same (cfg : Config) (env : IterEnv) (st : CapState) (l : MonLine)
    (hm : cfg.monitorLine = some l)
    (hsame : st.lastMonitor = some (degradeSample env.monitorSample)) :
    capture_iter cfg env st = (st, [], some PyErr.nameErrorCts) := by
  unfold capture_iter
  rw [hm]
  simp [hsame]

/-- C1: the claim says that when the monitor line never asserts within
the 30 s wait, the engine still transitions to Capturing and the capture
loop then writes incoming bytes without raising.  The first half is
true: `wait_for_assertion` returns `false` on an all-false sample train
and the code falls through to the loop either way.  The second half is
false on the code: with a monitor line configured, the first loop
iteration executes the stray `last_cts = cts` (listen.py line 193),
`cts` is undefined, and the resulting `NameError` kills the session
before a single byte is read or written. -/
theorem c1_timeout_then_capture_loop_raises :
    wait_for_assertion (List.replicate 301 false) = false ∧
    (run_capture cfgMonC1 [envPendingByte] tsExample outExample elExample).outcome =
      Outcome.crashed PyErr.nameErrorCts ∧
    (run_capture cfgMonC1 [envPendingByte] tsExample outExample elExample).final.bin.content =
      [] ∧
    (run_capture cfgMonC1 [envPendingByte] tsExample outExample elExample).stdout = [] :=
  ⟨wait_all_false 301, rfl, rfl, rfl⟩

/-- C5: in a Capturing iteration with logging enabled and a monitor line
configured, a sampled value differing from the last observed one appends
exactly one annotation line (starting with `#`, carrying the new boolean
value and the detection timestamp) and updates the last-observed state;
an equal sample leaves the state untouched, and once updated the same
sampled value appends nothing further. -/
theorem c5_change_annotation (cfg : Config) (env : IterEnv) (st : CapState) (l : MonLine)
    (hm : cfg.monitorLine = some l) (hl : cfg.doLog = true) :
    (st.lastMonitor ≠ some (degradeSample env.monitorSample) →
      (capture_iter cfg env st).1.log =
        st.log ++ [annotChange l (degradeSample env.monitorSample) env.timeMs] ∧
      (capture_iter cfg env st).1.lastMonitor = some (degradeSample env.monitorSample)) ∧
    (st.lastMonitor = some (degradeSample env.monitorSample) →
      (capture_iter cfg env st).1 = st) ∧
    (∀ env2 : IterEnv, degradeSample env2.monitorSample = degradeSample env.monitorSample →
      (capture_iter cfg env2 (capture_iter cfg env st).1).1.log =
        (capture_iter cfg env st).1.log) ∧
    (annotChange l (degradeSample env.monitorSample) env.timeMs).data.head? = some '#' ∧
    annotChange l (degradeSample env.monitorSample) env.timeMs =
      String.mk ['#', ' '] ++ monName l ++ " changed: " ++
        pyBool (degradeSample env.monitorSample) ++ " at " ++ fmtMs env.timeMs := by
  refine ⟨?_, ?_, ?_, ?_, rfl⟩
  · intro hne
    rw [capture_iter_monitor_hit cfg env st l hm hl hne]
    exact ⟨rfl, rfl⟩
  · intro heq
    rw [capture_iter_monitor_same cfg env st l hm heq]
  · intro env2 hsame
    by_cases hprev : st.lastMonitor = some (degradeSample env.monitorSample)
    · rw [capture_iter_monitor_same cfg env st l hm hprev]
      rw [capture_iter_monitor_same cfg env2 st l hm (by rw [hsame]; exact hprev)]
    · rw [capture_iter_monitor_hit cfg env st l hm hl hprev]
      rw [capture_iter_monitor_same cfg env2 _ l hm (by simp [hsame])]
  · rw [annotChange]
    cases l <;> simp [String.data_append, monName]

def cfgC5 : Config :=
  { monitorLine := some MonLine.cts, doLog := true, sevenbit := false, initMonitor := false }

def envC5 : IterEnv :=
  { monitorSample := Except.ok true, readData := [], timeMs := 5025 }

def stC5 : CapState := initState cfgC5 tsExample

theorem c5_change_annotation_witness :
    stC5.lastMonitor ≠ some (degradeSample envC5.monitorSample) ∧
    (capture_iter cfgC5 envC5 stC5).1.log =
      stC5.log ++ [annotChange MonLine.cts (degradeSample envC5.monitorSample) envC5.timeMs] ∧
    (capture_iter cfgC5 envC5 stC5).1.lastMonitor = some true := by
  have h := c5_change_annotation cfgC5 envC5 stC5 MonLine.cts rfl rfl
  have hne : stC5.lastMonitor ≠ some (degradeSample envC5.monitorSample) := by decide
  exact ⟨hne, (h.1 hne).1, (h.1 hne).2⟩

/-- Both exit paths of the `try/finally/with` leave `final` and `trace`
as the loop produced them. -/
theorem run_capture_proj (cfg : Config) (envs : List IterEnv) (ts o el : String) :
    (run_capture cfg envs ts o el).final = (runIters cfg envs (initState cfg ts)).1 ∧
    (run_capture cfg envs ts o el).trace = (runIters cfg envs (initState cfg ts)).2.1 := by
  unfold run_capture
  rcases hr : runIters cfg envs (initState cfg ts) with ⟨st, evs, err⟩
  cases err <;> simp

/-- Masking a byte clears the high bit. -/
theorem and127_high_bit (x : Nat) : (x &&& 0x7F) &&& 0x80 = 0 := by
  have hlt : x &&& 0x7F < 128 := lt_of_le_of_lt Nat.and_le_right (by omega)
  have hbit : (x &&& 0x7F).testBit 7 = false :=
    Nat.testBit_eq_false_of_lt (by simpa using hlt)
  have h2 : (128 : Nat) = 2 ^ 7 := by norm_num
  rw [h2, Nat.and_two_pow, hbit]
  rfl

/-- C2: with 7-bit masking enabled (and the loop actually running, i.e.
no monitor line), the final binary sink holds exactly the masked chunks:
every byte has the high bit clear and the length is the sum of the chunk
lengths read; and within each iteration the trace is the raw write and
flush, then the seek-back by the chunk length, the masked rewrite and
the second flush, then any logging. -/
theorem c2_sevenbit_masking (cfg : Config) (envs : List IterEnv) (ts o el : String)
    (hm : cfg.monitorLine = none) (hs : cfg.sevenbit = true)
    (hne : ∀ e ∈ envs, e.readData ≠ []) :
    (run_capture cfg envs ts o el).final.bin.content =
      (envs.map (fun e => e.readData.map (fun b => b &&& 0x7F))).flatten ∧
    (∀ b ∈ (run_capture cfg envs ts o el).final.bin.content, b &&& 0x80 = 0) ∧
    (run_capture cfg envs ts o el).final.bin.content.length =
      (envs.map (fun e => e.readData.length)).sum ∧
    (∀ e ∈ envs, ∀ st : CapState,
      (capture_iter cfg e st).2.1 =
        [Ev.serRead 1024, Ev.binWrite e.readData, Ev.binFlush,
          Ev.binSeekBack e.readData.length,
          Ev.binWrite (e.readData.map (fun b => b &&& 0x7F)), Ev.binFlush] ++
        (if cfg.doLog then
          (capture_log_lines (e.readData.map (fun b => b &&& 0x7F)) st.offset).map Ev.logWrite
            ++ [Ev.logFlush] else [])) := by
  obtain ⟨hfin, _⟩ := run_capture_proj cfg envs ts o el
  obtain ⟨_, hcont, _, _, _, _⟩ := runIters_mon_none cfg hm envs (initState cfg ts) rfl
  have hcontent : (run_capture cfg envs ts o el).final.bin.content =
      (envs.map (fun e => e.readData.map (fun b => b &&& 0x7F))).flatten := by
    rw [hfin, hcont]
    simp only [initState, List.nil_append]
    congr 1
    apply List.map_congr_left
    intro e _
    simp [procChunk, hs]
  refine ⟨hcontent, ?_, ?_, ?_⟩
  · intro b hb
    rw [hcontent] at hb
    rw [List.mem_flatten] at hb
    obtain ⟨chunk, hchunk, hbc⟩ := hb
    rw [List.mem_map] at hchunk
    obtain ⟨e, _, rfl⟩ := hchunk
    rw [List.mem_map] at hbc
    obtain ⟨x, _, rfl⟩ := hbc
    exact and127_high_bit x
  · rw [hcontent, List.length_flatten, List.map_map]
    congr 1
    apply List.map_congr_left
    intro e _
    simp [Function.comp]
  · intro e he st
    rw [capture_iter_masked cfg e st hm (hne e he) hs]

def cfgMask : Config :=
  { monitorLine := none, doLog := false, sevenbit := true, initMonitor := false }

def envsMask : List IterEnv :=
  [ { monitorSample := Except.ok false, readData := [0xC1, 0x41], timeMs := 0 },
    { monitorSample := Except.ok false, readData := [0xFF], timeMs := 1 } ]

theorem c2_sevenbit_masking_witness :
    (∀ e ∈ envsMask, e.readData ≠ []) ∧
    (run_capture cfgMask envsMask tsExample outExample elExample).final.bin.content =
      [65, 65, 127] ∧
    (run_capture cfgMask envsMask tsExample outExample elExample).final.bin.content.length = 3 := by
  have hne : ∀ e ∈ envsMask, e.readData ≠ [] := by decide
  have h := c2_sevenbit_masking cfgMask envsMask tsExample outExample elExample rfl rfl hne
  refine ⟨hne, ?_, ?_⟩
  · rw [h.1]
    decide
  · rw [h.2.2.1]
    decide

/-- Running offset after the first `k` loop iterations. -/
def offsetAfterK (cfg : Config) (envs : List IterEnv) (ts : String) (k : Nat) : Nat :=
  (runIters cfg (envs.take k) (initState cfg ts)).1.offset

theorem sum_map_take_succ {α : Type} (f : α → Nat) :
    ∀ (l : List α) (k : Nat) (h : k < l.length),
      ((l.take (k + 1)).map f).sum = ((l.take k).map f).sum + f l[k] := by
  intro l
  induction l with
  | nil =>
    intro k h
    simp at h
  | cons a t ih =>
    intro k h
    cases k with
    | zero => simp
    | succ k =>
      simp only [List.take_succ_cons, List.map_cons, List.sum_cons, List.getElem_cons_succ]
      rw [ih k (by simpa using h)]
      omega

/-- C3: with the loop running (no monitor line), the final running
offset equals the total number of bytes read, however they were split
into chunks and whether or not masking is on; it strictly increases
across non-empty iterations; and it never exceeds the number of bytes
ever written to the binary sink. -/
theorem c3_offset_invariant (cfg : Config) (envs : List IterEnv) (ts o el : String)
    (hm : cfg.monitorLine = none) :
    (run_capture cfg envs ts o el).final.offset =
      (envs.map (fun e => e.readData.length)).sum ∧
    (run_capture cfg envs ts o el).final.offset =
      (envs.map (fun e => e.readData)).flatten.length ∧
    (∀ k (h : k < envs.length), envs[k].readData ≠ [] →
      offsetAfterK cfg envs ts k < offsetAfterK cfg envs ts (k + 1)) ∧
    (run_capture cfg envs ts o el).final.offset ≤
      writtenBytes (run_capture cfg envs ts o el).trace := by
  obtain ⟨hfin, htr⟩ := run_capture_proj cfg envs ts o el
  obtain ⟨_, _, _, hoff, _, hwb⟩ := runIters_mon_none cfg hm envs (initState cfg ts) rfl
  have hoff0 : (run_capture cfg envs ts o el).final.offset =
      (envs.map (fun e => e.readData.length)).sum := by
    rw [hfin, hoff]
    simp [initState]
  refine ⟨hoff0, ?_, ?_, ?_⟩
  · rw [hoff0, List.length_flatten, List.map_map]
    congr 1
  · intro k h hk
    unfold offsetAfterK
    obtain ⟨_, _, _, hoffk, _, _⟩ := runIters_mon_none cfg hm (envs.take k) (initState cfg ts) rfl
    obtain ⟨_, _, _, hoffk1, _, _⟩ :=
      runIters_mon_none cfg hm (envs.take (k + 1)) (initState cfg ts) rfl
    rw [hoffk, hoffk1]
    simp only [initState, Nat.zero_add]
    rw [sum_map_take_succ (fun e => e.readData.length) envs k h]
    have hpos : 0 < envs[k].readData.length := List.length_pos.mpr hk
    omega
  · rw [hoff0, htr]
    exact hwb

def cfgPlain : Config :=
  { monitorLine := none, doLog := false, sevenbit := false, initMonitor := false }

def envsSplit : List IterEnv :=
  [ { monitorSample := Except.ok false, readData := [1, 2, 3], timeMs := 0 },
    { monitorSample := Except.ok false, readData := [], timeMs := 1 },
    { monitorSample := Except.ok false, readData := [4], timeMs := 2 } ]

theorem c3_offset_invariant_witness :
    (run_capture cfgPlain envsSplit tsExample outExample elExample).final.offset = 4 ∧
    envsSplit[0].readData ≠ [] ∧
    offsetAfterK cfgPlain envsSplit tsExample 0 < offsetAfterK cfgPlain envsSplit tsExample 1 := by
  have h := c3_offset_invariant cfgPlain envsSplit tsExample outExample elExample rfl
  refine ⟨?_, by decide, ?_⟩
  · rw [h.1]
    decide
  · exact h.2.2.1 0 (by decide) (by decide)

/-- C7: when the operator interrupt arrives at a loop boundary (no
monitor line, so the loop is actually running), the session ends with
the `Interrupted` outcome rather than a crash, both sinks are closed,
the stdout report names the output file and the elapsed time, and every
processed chunk written before the interrupt is still in the sink. -/
theorem c7_interrupted_outcome (cfg : Config) (envs : List IterEnv) (ts o el : String)
    (hm : cfg.monitorLine = none) :
    (run_capture cfg envs ts o el).outcome = Outcome.interrupted ∧
    (run_capture cfg envs ts o el).binClosed = true ∧
    (run_capture cfg envs ts o el).logClosed = true ∧
    (run_capture cfg envs ts o el).stdout = [msgInterrupted, msgWrote o el] ∧
    msgWrote o el = "Wrote file: " ++ o ++ ", elapsed " ++ el ++ "s" ∧
    (run_capture cfg envs ts o el).final.bin.content =
      (envs.map (fun e => procChunk cfg e.readData)).flatten ∧
    (run_capture cfg envs ts o el).final.bin.content.length =
      (envs.map (fun e => e.readData.length)).sum := by
  obtain ⟨hne, hcont, _, _, _, _⟩ := runIters_mon_none cfg hm envs (initState cfg ts) rfl
  unfold run_capture
  rcases hr : runIters cfg envs (initState cfg ts) with ⟨st, evs, err⟩
  rw [hr] at hne hcont
  simp only at hne hcont
  subst hne
  refine ⟨rfl, rfl, rfl, rfl, rfl, ?_, ?_⟩
  · rw [hcont]
    simp [initState]
  · rw [hcont]
    simp only [initState, List.nil_append, List.length_flatten, List.map_map]
    congr 1
    apply List.map_congr_left
    intro e _
    simp [Function.comp, length_procChunk]

def envs120 : List IterEnv :=
  [ { monitorSample := Except.ok false, readData := List.replicate 120 65, timeMs := 0 } ]

theorem c7_interrupted_outcome_witness :
    (run_capture cfgPlain envs120 tsExample outExample elExample).outcome =
      Outcome.interrupted ∧
    (run_capture cfgPlain envs120 tsExample outExample elExample).binClosed = true ∧
    (run_capture cfgPlain envs120 tsExample outExample elExample).final.bin.content.length =
      120 := by
  have h := c7_interrupted_outcome cfgPlain envs120 tsExample outExample elExample rfl
  refine ⟨h.1, h.2.1, ?_⟩
  rw [h.2.2.2.2.2.2]
  decide

set_option maxRecDepth 16000 in
/-- C4: every non-empty chunk is logged as one HexLogRecord line per 16
bytes (last line possibly shorter); line `i` renders the bytes starting
at session position `off + 16*i`, whose offset field is 8 zero-padded
uppercase hex digits denoting exactly that position; each byte field is
two uppercase hex digits denoting the byte; the ASCII pane shows `.` for
every byte outside `[0x20, 0x7E]` and the character itself inside; and a
37-byte chunk at session start yields exactly 3 lines with offsets
`00000000`, `00000010`, `00000020` covering 16, 16 and 5 bytes. -/
theorem c4_hexlog_records (data : List Nat) (off : Nat)
    (hoff : off + data.length ≤ 16 ^ 8) :
    (capture_log_lines data off).length = (data.length + 15) / 16 ∧
    (∀ i (h : i < (capture_log_lines data off).length),
      (capture_log_lines data off)[i] =
        hexdump_line ((data.drop (16 * i)).take 16) (off + 16 * i) ∧
      ((data.drop (16 * i)).take 16).length = min 16 (data.length - 16 * i) ∧
      (padLeft0 8 (hexChars (off + 16 * i))).length = 8 ∧
      (∀ c ∈ padLeft0 8 (hexChars (off + 16 * i)), isUpperHexDigit c = true) ∧
      hexStrVal (padLeft0 8 (hexChars (off + 16 * i))) = off + 16 * i) ∧
    (∀ b, b < 256 → (padLeft0 2 (hexChars b)).length = 2 ∧
      (∀ c ∈ padLeft0 2 (hexChars b), isUpperHexDigit c = true) ∧
      hexStrVal (padLeft0 2 (hexChars b)) = b) ∧
    (∀ b, ¬(0x20 ≤ b ∧ b ≤ 0x7E) → asciiChar b = '.') ∧
    (∀ b, 0x20 ≤ b → b ≤ 0x7E → asciiChar b = Char.ofNat b) ∧
    (capture_log_lines (List.range 37) 0).length = 3 ∧
    (capture_log_lines (List.range 37) 0).map (fun s => s.take 10) =
      [ r"00000000: ", r"00000010: ", r"00000020: " ] ∧
    (((List.range 37).drop 0).take 16).length = 16 ∧
    (((List.range 37).drop 16).take 16).length = 16 ∧
    (((List.range 37).drop 32).take 16).length = 5 := by
  refine ⟨capture_log_lines_length data off, ?_, ?_, ?_, ?_, by decide, by decide,
    by decide, by decide, by decide⟩
  · intro i h
    have hlen := capture_log_lines_length data off
    have hi : 16 * i < data.length := by
      rw [hlen] at h
      omega
    have hoffi : off + 16 * i < 16 ^ 8 := by
      have h8 : (16 : Nat) ^ 8 = 4294967296 := by norm_num
      omega
    obtain ⟨h8len, h8dig, h8val⟩ := offsetField_spec hoffi
    exact ⟨capture_log_lines_get i data off h,
      by simp [List.length_take, List.length_drop], h8len, h8dig, h8val⟩
  · intro b hb
    exact byteField_spec hb
  · intro b hb
    unfold asciiChar
    rw [if_neg]
    omega
  · intro b h1 h2
    unfold asciiChar
    rw [if_pos]
    exact ⟨h1, by omega⟩

theorem c4_hexlog_records_witness :
    0 + (List.range 37).length ≤ 16 ^ 8 ∧
    (capture_log_lines (List.range 37) 0).length = ((List.range 37).length + 15) / 16 := by
  have h := c4_hexlog_records (List.range 37) 0 (by norm_num)
  exact ⟨by norm_num, h.1⟩

/-- C6: `loopback_test` (generalized over the pattern) clears both
buffers, writes the pattern, flushes, sleeps 150 ms, reads exactly
`len(pattern)` bytes in one call (short reads are kept as-is), and
returns the byte-for-byte equality of read versus written; under a
perfect echo the equality flag is true and all bytes come back. -/
theorem c6_data_loopback (echo : List Nat → List Nat) (msg : List Nat) :
    (loopback_test echo msg).2 =
      [Ev.resetInputBuf, Ev.resetOutputBuf, Ev.serWrite msg, Ev.serFlush,
        Ev.sleepMs 150, Ev.serRead msg.length] ∧
    (loopback_test echo msg).1.written = msg.length ∧
    (loopback_test echo msg).1.received = (echo msg).take msg.length ∧
    ((loopback_test echo msg).1.ok = true ↔ (loopback_test echo msg).1.received = msg) ∧
    ((∀ x, echo x = x) →
      (loopback_test echo msg).1.ok = true ∧
      (loopback_test echo msg).1.received.length = msg.length) := by
  refine ⟨rfl, rfl, rfl, ?_, ?_⟩
  · simp [loopback_test]
  · intro hecho
    constructor
    · simp [loopback_test, hecho, List.take_length]
    · simp [loopback_test, hecho, List.take_length]

theorem c6_data_loopback_witness :
    (∀ x : List Nat, id x = x) ∧
    (loopback_test id loopback_msg).1.ok = true ∧
    (loopback_test id loopback_msg).1.received.length = loopback_msg.length := by
  have h := (c6_data_loopback id loopback_msg).2.2.2.2 (fun x => rfl)
  exact ⟨fun x => rfl, h.1, h.2⟩

/-- C9: `rts_cts_test` (generalized over the toggle sequence) returns
one pair per driven value, in driving order, with the first components
exactly the driven values, and its event trace is, per value: drive RTS,
wait 100 ms, sample CTS.  It computes no verdict over the pairs. -/
theorem c9_line_continuity (W : Type) (setR : Bool → W → W) (tick : W → W)
    (readC : W → Bool) (seq : List Bool) (w : W) :
    ((rts_cts_test setR tick readC seq w).1.map Prod.fst = seq) ∧
    ((rts_cts_test setR tick readC seq w).1.length = seq.length) ∧
    ((rts_cts_test setR tick readC seq w).2.2 =
      seq.flatMap (fun v => [Ev.setRTSLine v, Ev.sleepMs 100, Ev.sampleCTSLine])) := by
  induction seq generalizing w with
  | nil => exact ⟨rfl, rfl, rfl⟩
  | cons v rest ih =>
    obtain ⟨ih1, ih2, ih3⟩ := ih (tick (setR v w))
    refine ⟨?_, ?_, ?_⟩ <;> simp [rts_cts_test, ih1, ih2, ih3]

instance : DecidableEq (Except Unit Bool) := fun x y =>
  match x, y with
  | Except.ok a, Except.ok b => decidable_of_iff (a = b) (by simp)
  | Except.ok _, Except.error _ => Decidable.isFalse (by simp)
  | Except.error _, Except.ok _ => Decidable.isFalse (by simp)
  | Except.error a, Except.error b => Decidable.isTrue (by cases a; cases b; rfl)

instance : Fintype PyAccess where
  elems := { PyAccess.ok true, PyAccess.ok false, PyAccess.attrError, PyAccess.raiseOther }
  complete := by
    intro x
    rcases x with b | _ | _
    · cases b <;> simp
    · simp
    · simp

/-- C8, counterexample to the claim as stated: in listen.py's `get_cts`
the `getattr(ser, 'cts', False)` fallback sits outside the
`try/except`; when the adapter has no `getCTS` method and the `cts`
property raises anything other than `AttributeError`, the exception
propagates instead of degrading to `False`. -/
theorem c8_sampling_counterexample :
    get_cts false (PyAccess.ok true) PyAccess.raiseOther = Except.error () := rfl

/-- C8, amended: monitor.py's `read_lines` never propagates — every
raise degrades the line to `False` (a line reads `true` only when its
access genuinely returned `True`); listen.py's `get_cts`/`get_dsr`
degrade a raise from the `getCTS()`/`getDSR()` call (falling back to the
property) and degrade a missing attribute to `False`, but propagate a
non-`AttributeError` raise from the property access itself — that is
the only way sampling can fail. -/
theorem c8_degrade_policy :
    (∀ (h : Bool) (c a : PyAccess), read_line_status h c a = true ↔
      ((h = true ∧ c = PyAccess.ok true) ∨ (h = false ∧ a = PyAccess.ok true))) ∧
    (∀ a : PyAccess, read_line_status true PyAccess.raiseOther a = false) ∧
    (∀ (h : Bool) (c : PyAccess), read_line_status h c PyAccess.raiseOther = true →
      h = true ∧ c = PyAccess.ok true) ∧
    (∀ (h : Bool) (c a : PyAccess), get_cts h c a = Except.error () ↔
      (a = PyAccess.raiseOther ∧ ∀ b : Bool, ¬(h = true ∧ c = PyAccess.ok b))) ∧
    (∀ a : PyAccess, get_cts true PyAccess.raiseOther a = pyGetattrD a false) ∧
    (∀ (h : Bool) (c : PyAccess), ∃ b : Bool, get_cts h c PyAccess.attrError = Except.ok b) ∧
    (∀ (h : Bool) (c a : PyAccess), get_dsr h c a = get_cts h c a) := by
  refine ⟨by decide, by decide, by decide, by decide, by decide, by decide, by decide⟩

theorem c8_degrade_policy_witness :
    read_line_status false (PyAccess.ok true) PyAccess.raiseOther = false ∧
    get_cts true PyAccess.raiseOther PyAccess.attrError = Except.ok false := by
  have h := c8_degrade_policy
  constructor
  · have h1 := (h.1 false (PyAccess.ok true) PyAccess.raiseOther)
    revert h1
    decide
  · have h5 := h.2.2.2.2.1 PyAccess.attrError
    exact h5

def cfg10 : Config :=
  { monitorLine := none, doLog := true, sevenbit := true, initMonitor := false }

def env10 : IterEnv :=
  { monitorSample := Except.ok false, readData := [0xC1], timeMs := 0 }

def st10 : CapState :=
  { bin := { content := [], pos := 0 }, log := [], offset := 0, lastMonitor := none }

set_option maxRecDepth 16000 in
/-- C10: with both masking and logging on, the hex lines of an iteration
render the masked chunk, not the bytes as read: the log gains exactly
`capture_log_lines` of the masked bytes, and concretely a chunk `[0xC1]`
is logged as `41`, not as `C1`. -/
theorem c10_log_shows_masked_bytes (cfg : Config) (env : IterEnv) (st : CapState)
    (hm : cfg.monitorLine = none) (hs : cfg.sevenbit = true) (hl : cfg.doLog = true)
    (hne : env.readData ≠ []) :
    (capture_iter cfg env st).1.log =
      st.log ++ capture_log_lines (env.readData.map (fun b => b &&& 0x7F)) st.offset ∧
    (capture_iter cfg10 env10 st10).1.log.map (fun s => s.take 12) = [ r"00000000: 41" ] ∧
    (capture_iter cfg10 env10 st10).1.log.map (fun s => s.take 12) ≠ [ r"00000000: C1" ] := by
  refine ⟨?_, by decide, by decide⟩
  rw [capture_iter_masked cfg env st hm hne hs]
  simp [hl]

theorem c10_log_shows_masked_bytes_witness :
    env10.readData ≠ [] ∧
    (capture_iter cfg10 env10 st10).1.log =
      st10.log ++ capture_log_lines (env10.readData.map (fun b => b &&& 0x7F)) st10.offset := by
  have h := c10_log_shows_masked_bytes cfg10 env10 st10 rfl rfl rfl (by decide)
  exact ⟨by decide, h.1⟩

theorem c9_line_continuity_witness :
    ((rts_cts_test (fun v _ => v) (fun w => w) (fun w : Bool => w)
        [true, false, true] false).1.map Prod.fst) = [true, false, true] ∧
    (rts_cts_test (fun v _ => v) (fun w => w) (fun w : Bool => w)
        [true, false, true] false).1.length = 3 := by
  have h := c9_line_continuity Bool (fun v _ => v) (fun w => w) (fun w => w)
    [true, false, true] false
  exact ⟨h.1, h.2.1⟩
